import Mathlib

/-!
Shallow embedding of the cycamore BatchReactor facility
(src/Models/BatchReactor/batch_reactor.cc) and proofs about it.

Material quantities (C++ double) are modelled as rationals.  A material is
modelled by its quantity together with its recipe tag; transmutation keeps
the quantity and replaces the recipe.  The three resource buffers are lists
of batches (FIFO: Pop takes the head, Push appends at the back), and the
spillover material is tracked by its quantity alone.

Fallible operations (buffer pops that can underflow, vector accesses that
can be out of range) return Option / Except.
-/

namespace BatchReactor

/-- Operating phase of the reactor (enum Phase in batch_reactor.h; the
names INITIAL, PROCESS, WAITING are the ones used by batch_reactor.cc). -/
inductive Phase where
  | INITIAL
  | PROCESS
  | WAITING
deriving DecidableEq, Repr

/-- A batch / material blob: quantity plus recipe tag.  Transmute keeps the
quantity and replaces the recipe. -/
structure Batch where
  qty : ℚ
  recipe : String
deriving DecidableEq, Repr

/-- Facility configuration, immutable after initialization
(members set in BatchReactor::InitModuleMembers / the constructor).
The schema declares the integer fields as nonNegativeInteger, so they are
modelled as naturals. -/
structure Config where
  process_time : ℕ
  preorder_time : ℕ
  refuel_time : ℕ
  n_batches : ℕ
  n_load : ℕ
  n_reserves : ℕ
  batch_size : ℚ
  in_commodity : String
  in_recipe : String
  out_commodity : String
  out_recipe : String
deriving DecidableEq, Repr

/-- struct InitCond: initial batch counts for the three buffers. -/
structure InitCond where
  n_reserves : ℕ
  n_core : ℕ
  n_storage : ℕ
deriving DecidableEq, Repr

/-- Mutable facility state: phase, the time PROCESS was last entered, the
three buffers and the spillover quantity. -/
structure State where
  phase : Phase
  start_time : ℤ
  reserves : List Batch
  core : List Batch
  storage : List Batch
  spillover : ℚ
deriving DecidableEq, Repr

/-- Total quantity held by a buffer (ResourceBuff::quantity). -/
def qtySum (l : List Batch) : ℚ := (l.map Batch.qty).sum

/-- reserves_.quantity() -/
def reservesQty (s : State) : ℚ := qtySum s.reserves

/-- core_.quantity() -/
def coreQty (s : State) : ℚ := qtySum s.core

/-- storage_.quantity() -/
def storageQty (s : State) : ℚ := qtySum s.storage

/-- Total material quantity held anywhere in the facility. -/
def totalQty (s : State) : ℚ :=
  reservesQty s + coreQty s + storageQty s + s.spillover

/-- Modelled from the spec: end_time() is declared in the missing header
batch_reactor.h; the spec states endTime = startTime + processTime. -/
def endTime (cfg : Config) (s : State) : ℤ :=
  s.start_time + (cfg.process_time : ℤ)

/-- Modelled from the spec: order_time() is declared in the missing header
batch_reactor.h; the spec describes it as the phase-relevant horizon (the
end of the current cycle) minus preorderTime. -/
def orderTime (cfg : Config) (s : State) : ℤ :=
  endTime cfg s - (cfg.preorder_time : ℤ)

/-- BatchReactor::phase(Phase p) (batch_reactor.cc lines 436-447): entering
PROCESS records start_time = context()->time() (the current tick time);
every other phase change leaves start_time untouched. -/
def setPhase (t : ℤ) (p : Phase) (s : State) : State :=
  match p with
  | Phase.PROCESS => { s with phase := p, start_time := t }
  | _ => { s with phase := p }

/-- BatchReactor::MoveBatchOut_ (lines 470-485): pop one batch from the
core, transmute it to the output recipe (quantity preserved), push it into
storage.  Popping an empty core raises, modelled as none. -/
def moveBatchOut_ (cfg : Config) (core storage : List Batch) :
    Option (List Batch × List Batch) :=
  match core with
  | [] => none
  | b :: rest => some (rest, storage ++ [{ qty := b.qty, recipe := cfg.out_recipe }])

/-- The unload loop of HandleTick (lines 276-278): n calls to MoveBatchOut_. -/
def unloadN (cfg : Config) : ℕ → List Batch → List Batch →
    Option (List Batch × List Batch)
  | 0, core, storage => some (core, storage)
  | n + 1, core, storage =>
    (moveBatchOut_ cfg core storage).bind fun cs => unloadN cfg n cs.1 cs.2

/-- BatchReactor::HandleTick (lines 267-297).  In the C++ the WAITING guard
compares against context()->time(), which during HandleTick equals the tick
time argument; both are modelled by the single parameter t. -/
def handleTick (cfg : Config) (t : ℤ) (s : State) : Option State :=
  match s.phase with
  | Phase.PROCESS =>
    if t = endTime cfg s then
      (unloadN cfg cfg.n_load s.core s.storage).map fun cs =>
        setPhase t Phase.WAITING { s with core := cs.1, storage := cs.2 }
    else some s
  | Phase.WAITING =>
    if s.core.length = cfg.n_batches ∧ endTime cfg s + (cfg.refuel_time : ℤ) ≤ t
    then some (setPhase t Phase.PROCESS s)
    else some s
  | Phase.INITIAL =>
    if s.core.length = cfg.n_batches
    then some (setPhase t Phase.PROCESS s)
    else some s

/-- BatchReactor::Refuel_ (lines 450-454): while the core is not full and
reserves are not empty, move one batch from reserves into the core
(MoveBatchIn_, quantity and recipe unchanged). -/
def refuel_ (cfg : Config) : List Batch → List Batch → List Batch × List Batch
  | core, [] => (core, [])
  | core, b :: rest =>
    if core.length < cfg.n_batches then refuel_ cfg (core ++ [b]) rest
    else (core, b :: rest)

/-- BatchReactor::HandleTock (lines 300-311): refuel in INITIAL and WAITING,
do nothing in PROCESS. -/
def handleTock (cfg : Config) (s : State) : State :=
  match s.phase with
  | Phase.PROCESS => s
  | _ =>
    let cr := refuel_ cfg s.core s.reserves
    { s with core := cr.1, reserves := cr.2 }

/-- The while loop of AddBatches_ (lines 522-525): while the spillover
quantity is at least one batch, extract batch_size and push the extracted
batch onto reserves.  The extracted material carries the input recipe (the
facility only ever requests in_recipe material).  The C++ loop does not
terminate when batch_size is not positive; the guard 0 < B makes the model
total, and every theorem about it assumes 0 < B. -/
def drainLoop (B : ℚ) (recipe : String) (spill : ℚ) (rs : List Batch) :
    ℚ × List Batch :=
  if h : 0 < B ∧ B ≤ spill then
    drainLoop B recipe (spill - B) (rs ++ [{ qty := B, recipe := recipe }])
  else
    (spill, rs)
termination_by ⌊spill / B⌋₊
decreasing_by
  have hB : 0 < B := h.1
  have h1 : (1 : ℚ) ≤ spill / B := (one_le_div hB).mpr h.2
  have hfl : 1 ≤ ⌊spill / B⌋₊ := Nat.le_floor (by exact_mod_cast h1)
  have heq : (spill - B) / B = spill / B - 1 := by
    rw [sub_div, div_self (ne_of_gt hB)]
  simp only [heq, Nat.floor_sub_one]
  omega

/-- BatchReactor::AddBatches_ (lines 512-526): absorb the incoming quantity
into spillover, then drain whole batches into reserves. -/
def addBatches_ (cfg : Config) (q : ℚ) (s : State) : State :=
  let dr := drainLoop cfg.batch_size cfg.in_recipe (s.spillover + q) s.reserves
  { s with spillover := dr.1, reserves := dr.2 }

/-- BatchReactor::AcceptMatlTrades (lines 354-362): read responses.at(0)
(throws on an empty vector, modelled as none), absorb every later response
into it, and hand the merged material to AddBatches_. -/
def acceptMatlTrades (cfg : Config) (responses : List ℚ) (s : State) :
    Option State :=
  match responses with
  | [] => none
  | q :: rest => some (addBatches_ cfg (rest.foldl (fun a b => a + b) q) s)

/-- cyclus::ResourceBuff::PopQty, as used by GetMatlTrades: pop batches from
the front until amt is reached, splitting the last batch if needed; none if
the buffer cannot satisfy amt.  Returns (popped manifest, remaining buffer). -/
def popQty : ℚ → List Batch → Option (List Batch × List Batch)
  | amt, [] => if amt ≤ 0 then some ([], []) else none
  | amt, b :: rest =>
    if amt ≤ 0 then some ([], b :: rest)
    else if amt < b.qty then
      some ([{ qty := amt, recipe := b.recipe }],
            { qty := b.qty - amt, recipe := b.recipe } :: rest)
    else (popQty (amt - b.qty) rest).map fun pr => (b :: pr.1, pr.2)

/-- The wrapping applied to a caught buffer error (lines 417-420): the
literal class-name text of the source, prepended to the cause. -/
def wrapMsg (cause : String) : String :=
  "BatchReactor experience an error: " ++ cause

/-- Modelled from the spec: the error raised by the external buffer when a
pop exceeds the held quantity (BufferUnderflow in the spec error taxonomy);
its exact text lives in the external cyclus library and is opaque here. -/
def bufferUnderflowMsg : String := "BufferUnderflow"

/-- manifest[0] on an empty vector (line 422) is undefined behavior in the
C++; modelled as a distinct non-normal result.  Only reachable for a trade
amount that is not positive. -/
def emptyManifestMsg : String := "manifest[0] on empty manifest"

/-- BatchReactor::GetMatlTrades (lines 400-433): for each outgoing trade
amount in order, pop that quantity from storage (wrapping and rethrowing a
buffer failure), merge the popped manifest into one response material, and
collect the responses. -/
def getMatlTrades (cfg : Config) : List ℚ → State →
    Except String (List Batch × State)
  | [], s => Except.ok ([], s)
  | amt :: rest, s =>
    match popQty amt s.storage with
    | none => Except.error (wrapMsg bufferUnderflowMsg)
    | some (manifest, remaining) =>
      match manifest with
      | [] => Except.error emptyManifestMsg
      | b :: bs =>
        let response : Batch :=
          { qty := bs.foldl (fun a x => a + x.qty) b.qty, recipe := b.recipe }
        match getMatlTrades cfg rest { s with storage := remaining } with
        | Except.error e => Except.error e
        | Except.ok (resps, sF) => Except.ok (response :: resps, sF)

/-- A request portfolio as built by GetOrder_ (lines 488-509): one request
for size of in_recipe material on in_commodity, with a capacity constraint
equal to the same size. -/
structure RequestPortfolio where
  qty : ℚ
  commodity : String
  recipe : String
  constraint : ℚ
deriving DecidableEq, Repr

/-- BatchReactor::GetOrder_ (lines 488-509). -/
def getOrder_ (cfg : Config) (size : ℚ) : RequestPortfolio :=
  { qty := size, commodity := cfg.in_commodity, recipe := cfg.in_recipe,
    constraint := size }

/-- BatchReactor::GetMatlRequests (lines 315-351). -/
def getMatlRequests (cfg : Config) (t : ℤ) (s : State) :
    List RequestPortfolio :=
  match s.phase with
  | Phase.INITIAL =>
    let base := (cfg.n_batches : ℚ) * cfg.batch_size
                - coreQty s - reservesQty s - s.spillover
    let order_size :=
      if cfg.preorder_time = 0
      then base + cfg.batch_size * (cfg.n_reserves : ℚ)
      else base
    if 0 < order_size then [getOrder_ cfg order_size] else []
  | _ =>
    let order_size := (cfg.n_reserves : ℚ) * cfg.batch_size
                      - reservesQty s - s.spillover
    if orderTime cfg s ≤ t ∧ 0 < order_size
    then [getOrder_ cfg order_size] else []

/-- A bid portfolio as built by GetMatlBids: the offered quantity for each
request on the output commodity, plus the single shared capacity
constraint. -/
structure BidPortfolio where
  bids : List ℚ
  constraint : ℚ
deriving DecidableEq, Repr

/-- BatchReactor::GetMatlBids (lines 365-397).  The request map is modelled
as a list of (commodity, requested quantity) pairs; the key-present test
commod_requests.count(out_commodity) > 0 corresponds to a nonempty list of
requests for the output commodity (the map never holds empty entries). -/
def getMatlBids (cfg : Config) (s : State) (reqs : List (String × ℚ)) :
    List BidPortfolio :=
  let relevant := (reqs.filter fun r => r.1 = cfg.out_commodity).map Prod.snd
  if relevant ≠ [] ∧ 0 < storageQty s then
    [{ bids := relevant.map fun q => min q (storageQty s),
       constraint := storageQty s }]
  else []

/-- BatchReactor::Deploy (lines 240-264): reset phase to INITIAL, reset
spillover to a blank material, and push the initial-condition counts of
whole batches into the three buffers (in_recipe for reserves and core,
out_recipe for storage).  A freshly constructed facility has
start_time = -1 (constructor line 28) and Deploy does not change it. -/
def deploy (cfg : Config) (ics : InitCond) : State :=
  { phase := Phase.INITIAL
    start_time := -1
    reserves := List.replicate ics.n_reserves
      { qty := cfg.batch_size, recipe := cfg.in_recipe }
    core := List.replicate ics.n_core
      { qty := cfg.batch_size, recipe := cfg.in_recipe }
    storage := List.replicate ics.n_storage
      { qty := cfg.batch_size, recipe := cfg.out_recipe }
    spillover := 0 }

/-- The optional elements nreload and norder of the configuration input
(none = element absent). -/
structure OptQuery where
  nreload : Option ℕ
  norder : Option ℕ
deriving DecidableEq, Repr

/-- cyclus::GetOptionalQuery: the element content when present, the supplied
default otherwise. -/
def getOptionalQuery (v : Option ℕ) (dflt : ℕ) : ℕ := v.getD dflt

/-- The nreload / norder handling of InitModuleMembers (lines 165-169),
starting from the constructor defaults n_load_ = 1, n_reserves_ = 1
(lines 30-31): first n_load is set from nreload with the current n_load()
as default, then n_reserves is set from norder with the freshly updated
n_load() as default.  Returns (n_load, n_reserves). -/
def initLoadReserves (q : OptQuery) : ℕ × ℕ :=
  let n_load0 : ℕ := 1
  let n1 := getOptionalQuery q.nreload n_load0
  let n2 := getOptionalQuery q.norder n1
  (n1, n2)

/-- One externally driven operation on the facility. -/
inductive Op where
  | tick (t : ℤ)
  | tock (t : ℤ)
  | accept (responses : List ℚ)
  | fulfill (amts : List ℚ)
deriving DecidableEq, Repr

/-- Run one operation; none when the C++ raises out of it. -/
def step (cfg : Config) (s : State) : Op → Option State
  | Op.tick t => handleTick cfg t s
  | Op.tock _ => some (handleTock cfg s)
  | Op.accept qs => acceptMatlTrades cfg qs s
  | Op.fulfill amts =>
    match getMatlTrades cfg amts s with
    | Except.ok (_, sF) => some sF
    | Except.error _ => none

/-- Run a sequence of operations. -/
def runOps (cfg : Config) : List Op → State → Option State
  | [], s => some s
  | op :: ops, s => (step cfg s op).bind (runOps cfg ops)

/-- Quantity received from outside by an operation. -/
def inflow : Op → ℚ
  | Op.tick _ => 0
  | Op.tock _ => 0
  | Op.accept qs => qs.sum
  | Op.fulfill _ => 0

/-- Quantity shipped out by an operation. -/
def outflow : Op → ℚ
  | Op.tick _ => 0
  | Op.tock _ => 0
  | Op.accept _ => 0
  | Op.fulfill amts => amts.sum

/-! ### Helper lemmas -/

theorem qtySum_nil : qtySum [] = 0 := rfl

theorem qtySum_cons (b : Batch) (l : List Batch) :
    qtySum (b :: l) = b.qty + qtySum l := by
  simp [qtySum]

theorem qtySum_append (l1 l2 : List Batch) :
    qtySum (l1 ++ l2) = qtySum l1 + qtySum l2 := by
  simp [qtySum]

theorem qtySum_replicate (n : ℕ) (b : Batch) :
    qtySum (List.replicate n b) = (n : ℚ) * b.qty := by
  induction n with
  | zero => simp [qtySum]
  | succ m ih =>
    rw [List.replicate_succ, qtySum_cons, ih]
    push_cast
    ring

theorem drainLoop_consv (B : ℚ) (r : String) (spill : ℚ) (rs : List Batch) :
    (drainLoop B r spill rs).1 + qtySum (drainLoop B r spill rs).2
      = spill + qtySum rs := by
  induction spill, rs using drainLoop.induct B r with
  | case1 spill rs h ih =>
    rw [drainLoop, dif_pos h, ih, qtySum_append, qtySum_cons, qtySum_nil]
    ring
  | case2 spill rs h =>
    rw [drainLoop, dif_neg h]

theorem drainLoop_bound (B : ℚ) (r : String) (hB : 0 < B) (spill : ℚ)
    (rs : List Batch) :
    (drainLoop B r spill rs).1 < B ∧
      (0 ≤ spill → 0 ≤ (drainLoop B r spill rs).1) := by
  induction spill, rs using drainLoop.induct B r with
  | case1 spill rs h ih =>
    rw [drainLoop, dif_pos h]
    exact ⟨ih.1, fun _ => ih.2 (by linarith [h.2])⟩
  | case2 spill rs h =>
    rw [drainLoop, dif_neg h]
    push_neg at h
    exact ⟨h hB, fun h0 => h0⟩

theorem drainLoop_mul (B : ℚ) (r : String) (hB : 0 < B) (k : ℕ)
    (rs : List Batch) :
    drainLoop B r ((k : ℚ) * B) rs
      = (0, rs ++ List.replicate k { qty := B, recipe := r }) := by
  induction k generalizing rs with
  | zero =>
    rw [drainLoop, dif_neg]
    · simp
    · push_neg
      intro
      simp
      linarith
  | succ n ih =>
    have hcond : 0 < B ∧ B ≤ ((n + 1 : ℕ) : ℚ) * B := by
      refine ⟨hB, ?_⟩
      have h1 : (1 : ℚ) ≤ ((n + 1 : ℕ) : ℚ) := by exact_mod_cast Nat.succ_le_succ (Nat.zero_le n)
      nlinarith
    rw [drainLoop, dif_pos hcond]
    have harith : ((n + 1 : ℕ) : ℚ) * B - B = (n : ℚ) * B := by
      push_cast
      ring
    rw [harith, ih]
    simp [List.replicate_succ]

theorem foldl_add_sum (l : List ℚ) (a : ℚ) :
    l.foldl (fun x y => x + y) a = a + l.sum := by
  induction l generalizing a with
  | nil => simp
  | cons b t ih =>
    rw [List.foldl_cons, ih, List.sum_cons]
    ring

theorem addBatches_total (cfg : Config) (q : ℚ) (s : State) :
    totalQty (addBatches_ cfg q s) = totalQty s + q := by
  have h := drainLoop_consv cfg.batch_size cfg.in_recipe (s.spillover + q) s.reserves
  simp only [addBatches_, totalQty, reservesQty, coreQty, storageQty]
  linarith

theorem addBatches_core (cfg : Config) (q : ℚ) (s : State) :
    (addBatches_ cfg q s).core = s.core := rfl

theorem unloadN_consv (cfg : Config) :
    ∀ (n : ℕ) (core storage c st : List Batch),
      unloadN cfg n core storage = some (c, st) →
      qtySum c + qtySum st = qtySum core + qtySum storage ∧
        c.length ≤ core.length := by
  intro n
  induction n with
  | zero =>
    intro core storage c st h
    rw [unloadN] at h
    cases h
    exact ⟨rfl, le_refl _⟩
  | succ m ih =>
    intro core storage c st h
    match core with
    | [] =>
      rw [unloadN] at h
      simp [moveBatchOut_] at h
    | b :: rest =>
      rw [unloadN] at h
      simp only [moveBatchOut_, Option.some_bind] at h
      obtain ⟨hsum, hlen⟩ := ih rest (storage ++ [{ qty := b.qty, recipe := cfg.out_recipe }]) c st h
      constructor
      · rw [hsum, qtySum_append, qtySum_cons, qtySum_cons, qtySum_nil]
        ring
      · simp only [List.length_cons]
        omega

theorem unloadN_spec (cfg : Config) :
    ∀ (n : ℕ) (core storage : List Batch), n ≤ core.length →
      unloadN cfg n core storage =
        some (core.drop n,
          storage ++ (core.take n).map
            fun b => { qty := b.qty, recipe := cfg.out_recipe }) := by
  intro n
  induction n with
  | zero => intro core storage _; simp [unloadN]
  | succ m ih =>
    intro core storage hlen
    match core with
    | [] => simp at hlen
    | b :: rest =>
      rw [unloadN]
      simp only [moveBatchOut_, Option.some_bind]
      rw [ih rest _ (by simpa using hlen)]
      simp [List.append_assoc]

theorem refuel_consv (cfg : Config) :
    ∀ (rs core : List Batch),
      qtySum (refuel_ cfg core rs).1 + qtySum (refuel_ cfg core rs).2
        = qtySum core + qtySum rs := by
  intro rs
  induction rs with
  | nil => intro core; simp [refuel_, qtySum]
  | cons b rest ih =>
    intro core
    rw [refuel_]
    by_cases h : core.length < cfg.n_batches
    · rw [if_pos h, ih, qtySum_append, qtySum_cons, qtySum_cons, qtySum_nil]
      ring
    · rw [if_neg h]

theorem refuel_len (cfg : Config) :
    ∀ (rs core : List Batch), core.length ≤ cfg.n_batches →
      (refuel_ cfg core rs).1.length ≤ cfg.n_batches := by
  intro rs
  induction rs with
  | nil => intro core h; simpa [refuel_] using h
  | cons b rest ih =>
    intro core h
    rw [refuel_]
    by_cases hlt : core.length < cfg.n_batches
    · rw [if_pos hlt]
      exact ih _ (by simp only [List.length_append, List.length_cons, List.length_nil]; omega)
    · rw [if_neg hlt]
      exact h

theorem popQty_consv :
    ∀ (l : List Batch) (amt : ℚ) (p rest : List Batch),
      popQty amt l = some (p, rest) → qtySum p + qtySum rest = qtySum l := by
  intro l
  induction l with
  | nil =>
    intro amt p rest h
    rw [popQty] at h
    by_cases h0 : amt ≤ 0
    · rw [if_pos h0] at h
      cases h
      simp [qtySum]
    · rw [if_neg h0] at h
      cases h
  | cons b t ih =>
    intro amt p rest h
    rw [popQty] at h
    by_cases h0 : amt ≤ 0
    · rw [if_pos h0] at h
      cases h
      rw [qtySum_nil]
      ring
    · rw [if_neg h0] at h
      by_cases h1 : amt < b.qty
      · rw [if_pos h1] at h
        cases h
        rw [qtySum_cons, qtySum_nil, qtySum_cons, qtySum_cons]
        ring
      · rw [if_neg h1] at h
        cases hrec : popQty (amt - b.qty) t with
        | none => rw [hrec] at h; cases h
        | some pr =>
          rw [hrec] at h
          cases h
          have := ih (amt - b.qty) pr.1 pr.2 (by rw [hrec])
          rw [qtySum_cons, qtySum_cons]
          linarith

theorem popQty_amt :
    ∀ (l : List Batch) (amt : ℚ), 0 ≤ amt → ∀ (p rest : List Batch),
      popQty amt l = some (p, rest) → qtySum p = amt := by
  intro l
  induction l with
  | nil =>
    intro amt hnn p rest h
    rw [popQty] at h
    by_cases h0 : amt ≤ 0
    · rw [if_pos h0] at h
      cases h
      rw [qtySum_nil]
      linarith
    · rw [if_neg h0] at h
      cases h
  | cons b t ih =>
    intro amt hnn p rest h
    rw [popQty] at h
    by_cases h0 : amt ≤ 0
    · rw [if_pos h0] at h
      cases h
      rw [qtySum_nil]
      linarith
    · rw [if_neg h0] at h
      by_cases h1 : amt < b.qty
      · rw [if_pos h1] at h
        cases h
        rw [qtySum_cons, qtySum_nil]
        ring
      · rw [if_neg h1] at h
        cases hrec : popQty (amt - b.qty) t with
        | none => rw [hrec] at h; cases h
        | some pr =>
          rw [hrec] at h
          cases h
          have hge : 0 ≤ amt - b.qty := by linarith [not_lt.mp h1]
          have := ih (amt - b.qty) hge pr.1 pr.2 (by rw [hrec])
          rw [qtySum_cons]
          linarith

theorem popQty_pos :
    ∀ (l : List Batch) (amt : ℚ) (b : Batch) (bs rest : List Batch),
      popQty amt l = some (b :: bs, rest) → 0 < amt := by
  intro l amt b bs rest h
  by_contra hle
  push_neg at hle
  match l with
  | [] =>
    rw [popQty, if_pos hle] at h
    cases h
  | c :: t =>
    rw [popQty, if_pos hle] at h
    cases h

theorem getMatlTrades_consv (cfg : Config) :
    ∀ (amts : List ℚ) (s : State) (resps : List Batch) (sF : State),
      getMatlTrades cfg amts s = Except.ok (resps, sF) →
      storageQty sF = storageQty s - amts.sum ∧
        sF.reserves = s.reserves ∧ sF.core = s.core ∧
        sF.spillover = s.spillover ∧ sF.phase = s.phase ∧
        sF.start_time = s.start_time := by
  intro amts
  induction amts with
  | nil =>
    intro s resps sF h
    rw [getMatlTrades] at h
    cases h
    refine ⟨by simp, rfl, rfl, rfl, rfl, rfl⟩
  | cons amt rest ih =>
    intro s resps sF h
    cases hp : popQty amt s.storage with
    | none => simp only [getMatlTrades, hp] at h; cases h
    | some pr =>
      obtain ⟨manifest, remaining⟩ := pr
      simp only [getMatlTrades, hp] at h
      match manifest, h with
      | [], h => simp at h
      | b :: bs, h =>
        cases hrec : getMatlTrades cfg rest { s with storage := remaining } with
        | error e => rw [hrec] at h; cases h
        | ok pr2 =>
          rw [hrec] at h
          cases h
          obtain ⟨hsto, hres, hcore, hsp, hph, hst⟩ :=
            ih { s with storage := remaining } pr2.1 pr2.2 (by rw [hrec])
          have hpos : 0 < amt := popQty_pos s.storage amt b bs remaining hp
          have hamt : qtySum (b :: bs) = amt :=
            popQty_amt s.storage amt (le_of_lt hpos) (b :: bs) remaining hp
          have hcons := popQty_consv s.storage amt (b :: bs) remaining hp
          refine ⟨?_, hres, hcore, hsp, hph, hst⟩
          rw [hsto]
          simp only [storageQty, List.sum_cons]
          linarith

theorem handleTick_total (cfg : Config) (t : ℤ) (s sF : State)
    (h : handleTick cfg t s = some sF) : totalQty sF = totalQty s := by
  rw [handleTick] at h
  cases hph : s.phase with
  | PROCESS =>
    rw [hph] at h
    by_cases he : t = endTime cfg s
    · rw [if_pos he] at h
      cases hu : unloadN cfg cfg.n_load s.core s.storage with
      | none => rw [hu] at h; cases h
      | some cs =>
        rw [hu] at h
        cases h
        obtain ⟨hsum, _⟩ := unloadN_consv cfg cfg.n_load s.core s.storage cs.1 cs.2 hu
        simp only [setPhase, totalQty, reservesQty, coreQty, storageQty]
        linarith
    · rw [if_neg he] at h
      cases h
      rfl
  | WAITING =>
    rw [hph] at h
    split_ifs at h <;> cases h <;>
      simp [setPhase, totalQty, reservesQty, coreQty, storageQty]
  | INITIAL =>
    rw [hph] at h
    split_ifs at h <;> cases h <;>
      simp [setPhase, totalQty, reservesQty, coreQty, storageQty]

theorem handleTock_total (cfg : Config) (s : State) :
    totalQty (handleTock cfg s) = totalQty s := by
  rw [handleTock]
  cases hph : s.phase with
  | PROCESS => rfl
  | WAITING =>
    have := refuel_consv cfg s.reserves s.core
    simp only [totalQty, reservesQty, coreQty, storageQty]
    linarith
  | INITIAL =>
    have := refuel_consv cfg s.reserves s.core
    simp only [totalQty, reservesQty, coreQty, storageQty]
    linarith

theorem step_total (cfg : Config) (s sF : State) (op : Op)
    (h : step cfg s op = some sF) :
    totalQty sF = totalQty s + inflow op - outflow op := by
  cases op with
  | tick t =>
    rw [step] at h
    rw [handleTick_total cfg t s sF h, inflow, outflow]
    ring
  | tock t =>
    rw [step] at h
    cases h
    rw [handleTock_total cfg s, inflow, outflow]
    ring
  | accept qs =>
    rw [step] at h
    match qs, h with
    | q :: rest, h =>
      rw [acceptMatlTrades] at h
      cases h
      rw [addBatches_total, foldl_add_sum, inflow, outflow, List.sum_cons]
      ring
  | fulfill amts =>
    rw [step] at h
    cases hgt : getMatlTrades cfg amts s with
    | error e => rw [hgt] at h; cases h
    | ok pr =>
      rw [hgt] at h
      cases h
      obtain ⟨hsto, hres, hcore, hsp, _, _⟩ :=
        getMatlTrades_consv cfg amts s pr.1 pr.2 (by rw [hgt])
      rw [inflow, outflow, totalQty, totalQty, reservesQty, coreQty, storageQty,
          reservesQty, coreQty, storageQty, hres, hcore, hsp]
      rw [storageQty] at hsto
      rw [storageQty] at hsto
      rw [hsto]
      ring

theorem handleTick_coreLen (cfg : Config) (t : ℤ) (s sF : State)
    (hlen : s.core.length ≤ cfg.n_batches)
    (h : handleTick cfg t s = some sF) :
    sF.core.length ≤ cfg.n_batches := by
  rw [handleTick] at h
  cases hph : s.phase with
  | PROCESS =>
    rw [hph] at h
    by_cases he : t = endTime cfg s
    · rw [if_pos he] at h
      cases hu : unloadN cfg cfg.n_load s.core s.storage with
      | none => rw [hu] at h; cases h
      | some cs =>
        rw [hu] at h
        cases h
        obtain ⟨_, hle⟩ := unloadN_consv cfg cfg.n_load s.core s.storage cs.1 cs.2 hu
        simp only [setPhase]
        omega
    · rw [if_neg he] at h
      cases h
      exact hlen
  | WAITING =>
    rw [hph] at h
    split_ifs at h <;> cases h <;> simpa [setPhase] using hlen
  | INITIAL =>
    rw [hph] at h
    split_ifs at h <;> cases h <;> simpa [setPhase] using hlen

theorem step_coreLen (cfg : Config) (s sF : State) (op : Op)
    (hlen : s.core.length ≤ cfg.n_batches)
    (h : step cfg s op = some sF) :
    sF.core.length ≤ cfg.n_batches := by
  cases op with
  | tick t =>
    rw [step] at h
    exact handleTick_coreLen cfg t s sF hlen h
  | tock t =>
    rw [step] at h
    cases h
    rw [handleTock]
    cases hph : s.phase with
    | PROCESS => exact hlen
    | WAITING => exact refuel_len cfg s.reserves s.core hlen
    | INITIAL => exact refuel_len cfg s.reserves s.core hlen
  | accept qs =>
    rw [step] at h
    match qs, h with
    | q :: rest, h =>
      rw [acceptMatlTrades] at h
      cases h
      rw [addBatches_core]
      exact hlen
  | fulfill amts =>
    rw [step] at h
    cases hgt : getMatlTrades cfg amts s with
    | error e => rw [hgt] at h; cases h
    | ok pr =>
      rw [hgt] at h
      cases h
      obtain ⟨_, _, hcore, _, _, _⟩ :=
        getMatlTrades_consv cfg amts s pr.1 pr.2 (by rw [hgt])
      rw [hcore]
      exact hlen

theorem runOps_total (cfg : Config) :
    ∀ (ops : List Op) (s sF : State), runOps cfg ops s = some sF →
      totalQty sF = totalQty s + (ops.map inflow).sum - (ops.map outflow).sum := by
  intro ops
  induction ops with
  | nil =>
    intro s sF h
    rw [runOps] at h
    cases h
    simp
  | cons op rest ih =>
    intro s sF h
    rw [runOps] at h
    cases hstep : step cfg s op with
    | none => rw [hstep] at h; cases h
    | some s1 =>
      rw [hstep, Option.some_bind] at h
      have h1 := step_total cfg s s1 op hstep
      have h2 := ih s1 sF h
      rw [h2, h1, List.map_cons, List.map_cons, List.sum_cons, List.sum_cons]
      ring

theorem runOps_coreLen (cfg : Config) :
    ∀ (ops : List Op) (s sF : State), s.core.length ≤ cfg.n_batches →
      runOps cfg ops s = some sF → sF.core.length ≤ cfg.n_batches := by
  intro ops
  induction ops with
  | nil =>
    intro s sF hlen h
    rw [runOps] at h
    cases h
    exact hlen
  | cons op rest ih =>
    intro s sF hlen h
    rw [runOps] at h
    cases hstep : step cfg s op with
    | none => rw [hstep] at h; cases h
    | some s1 =>
      rw [hstep, Option.some_bind] at h
      exact ih s1 sF (step_coreLen cfg s s1 op hlen hstep) h

theorem qtySum_nonneg :
    ∀ (l : List Batch), (∀ b ∈ l, 0 ≤ b.qty) → 0 ≤ qtySum l := by
  intro l
  induction l with
  | nil => intro _; rw [qtySum_nil]
  | cons b t ih =>
    intro h
    rw [qtySum_cons]
    have h1 := h b (by simp)
    have h2 := ih fun c hc => h c (by simp [hc])
    linarith

theorem popQty_none :
    ∀ (l : List Batch) (amt : ℚ), (∀ b ∈ l, 0 ≤ b.qty) → qtySum l < amt →
      popQty amt l = none := by
  intro l
  induction l with
  | nil =>
    intro amt _ hlt
    rw [qtySum_nil] at hlt
    rw [popQty, if_neg (by linarith)]
  | cons b t ih =>
    intro amt hnn hlt
    rw [qtySum_cons] at hlt
    have hb : 0 ≤ b.qty := hnn b (by simp)
    have ht : ∀ c ∈ t, 0 ≤ c.qty := fun c hc => hnn c (by simp [hc])
    have hts : 0 ≤ qtySum t := qtySum_nonneg t ht
    rw [popQty, if_neg (by linarith), if_neg (by linarith),
        ih (amt - b.qty) ht (by linarith)]
    rfl

/-! ### Concrete fixtures used by witnesses and counterexamples -/

/-- A small concrete configuration. -/
def cfgW : Config :=
  { process_time := 3, preorder_time := 0, refuel_time := 2,
    n_batches := 2, n_load := 1, n_reserves := 1, batch_size := 1,
    in_commodity := "uox_in", in_recipe := "fresh",
    out_commodity := "uox_out", out_recipe := "spent" }

/-- A processing state with a full two-batch core, PROCESS entered at 2. -/
def sW : State :=
  { phase := Phase.PROCESS, start_time := 2, reserves := [],
    core := [{ qty := 1, recipe := "fresh" }, { qty := 1, recipe := "fresh" }],
    storage := [], spillover := 0 }

/-- The state reached from sW by tick 5 and tock 5 under cfgW. -/
def sWF : State :=
  { phase := Phase.WAITING, start_time := 2, reserves := [],
    core := [{ qty := 1, recipe := "fresh" }],
    storage := [{ qty := 1, recipe := "spent" }], spillover := 0 }

/-- An empty initial state. -/
def s0W : State :=
  { phase := Phase.INITIAL, start_time := -1, reserves := [], core := [],
    storage := [], spillover := 0 }

/-- A waiting state with a full two-batch core, PROCESS last entered at 2. -/
def sWait : State :=
  { phase := Phase.WAITING, start_time := 2, reserves := [],
    core := [{ qty := 1, recipe := "fresh" }, { qty := 1, recipe := "fresh" }],
    storage := [], spillover := 0 }

/-- A state whose spillover already holds half a batch. -/
def sHalf : State :=
  { phase := Phase.WAITING, start_time := 0, reserves := [], core := [],
    storage := [], spillover := 1/2 }

/-- A state with three units of output material in storage. -/
def sBid : State :=
  { phase := Phase.WAITING, start_time := 2, reserves := [], core := [],
    storage := [{ qty := 3, recipe := "spent" }], spillover := 0 }

/-! ### Claim theorems -/

/-- C1: over any error-free sequence of tick, tock, accept-trades and
fulfill-trades operations, the total quantity reserves.qty + core.qty +
storage.qty + spillover.qty changes exactly by the quantities received in
incoming trades minus the quantities shipped in outgoing trades; no internal
operation (refuel, unload, absorb) creates or destroys quantity. -/
theorem batch_conservation (cfg : Config) (ops : List Op) (s sF : State)
    (h : runOps cfg ops s = some sF) :
    totalQty sF = totalQty s + (ops.map inflow).sum - (ops.map outflow).sum :=
  runOps_total cfg ops s sF h

/-- Witness for batch_conservation: a concrete two-operation run (the
unload tick of a cycle followed by a refuel tock). -/
theorem batch_conservation_witness :
    runOps cfgW [Op.tick 5, Op.tock 5] sW = some sWF ∧
    totalQty sWF = totalQty sW
      + ([Op.tick 5, Op.tock 5].map inflow).sum
      - ([Op.tick 5, Op.tock 5].map outflow).sum :=
  ⟨by rfl, batch_conservation cfgW [Op.tick 5, Op.tock 5] sW sWF (by rfl)⟩

/-- C2 counterexample: Deploy pushes the configured initial core count
unconditionally, so deploying with ncore = 3 against nbatches = 2 leaves 3
batches in the core, violating core.count ≤ batchCount immediately after
deployment. -/
theorem core_capacity_cex :
    ¬ ((deploy cfgW { n_reserves := 0, n_core := 3, n_storage := 0 }).core.length
        ≤ cfgW.n_batches) := by
  decide

/-- C2 (amended): provided the deployed initial core count does not exceed
nbatches, the number of batches in the core stays at most nbatches at every
point of every error-free run after deployment. -/
theorem core_capacity (cfg : Config) (ics : InitCond) (ops : List Op)
    (sF : State) (hic : ics.n_core ≤ cfg.n_batches)
    (h : runOps cfg ops (deploy cfg ics) = some sF) :
    sF.core.length ≤ cfg.n_batches := by
  refine runOps_coreLen cfg ops (deploy cfg ics) sF ?_ h
  simpa [deploy] using hic

/-- Witness for core_capacity: a concrete deployment followed by a tick and
a tock. -/
theorem core_capacity_witness :
    ({ n_reserves := 1, n_core := 2, n_storage := 0 } : InitCond).n_core
        ≤ cfgW.n_batches ∧
    (setPhase 0 Phase.PROCESS
        (deploy cfgW { n_reserves := 1, n_core := 2, n_storage := 0 })).core.length
      ≤ cfgW.n_batches :=
  ⟨by decide, core_capacity cfgW { n_reserves := 1, n_core := 2, n_storage := 0 }
    [Op.tick 0, Op.tock 0]
    (setPhase 0 Phase.PROCESS
      (deploy cfgW { n_reserves := 1, n_core := 2, n_storage := 0 }))
    (by decide) (by rfl)⟩

/-- C3: in the PROCESSING phase with at least loadCount batches in the core,
a tick at time t transitions to WAITING exactly when t = endTime; on that
transition exactly loadCount batches move from the front of the core to
storage, each transmuted to the output recipe, and at any other time the
tick changes nothing (no early unload). -/
theorem unload_timing (cfg : Config) (s : State) (t : ℤ)
    (hp : s.phase = Phase.PROCESS) (hl : cfg.n_load ≤ s.core.length) :
    ∃ sN, handleTick cfg t s = some sN ∧
      (sN.phase = Phase.WAITING ↔ t = endTime cfg s) ∧
      (t = endTime cfg s →
        sN.core = s.core.drop cfg.n_load ∧
        sN.storage = s.storage ++ (s.core.take cfg.n_load).map
          (fun b => { qty := b.qty, recipe := cfg.out_recipe }) ∧
        sN.reserves = s.reserves ∧ sN.spillover = s.spillover) ∧
      (t ≠ endTime cfg s → sN = s) := by
  by_cases he : t = endTime cfg s
  · refine ⟨setPhase t Phase.WAITING
      { s with core := s.core.drop cfg.n_load,
               storage := s.storage ++ (s.core.take cfg.n_load).map
                 (fun b => { qty := b.qty, recipe := cfg.out_recipe }) },
      ?_, ?_, ?_, ?_⟩
    · simp only [handleTick, hp, if_pos he,
        unloadN_spec cfg cfg.n_load s.core s.storage hl, Option.map_some']
    · simp [setPhase, he]
    · intro _
      exact ⟨rfl, rfl, rfl, rfl⟩
    · intro hne
      exact absurd he hne
  · refine ⟨s, ?_, ?_, fun hee => absurd hee he, fun _ => rfl⟩
    · simp only [handleTick, hp, if_neg he]
    · simp [hp, he]

/-- Witness for unload_timing at the unload tick of a concrete cycle. -/
theorem unload_timing_witness :
    sW.phase = Phase.PROCESS ∧ cfgW.n_load ≤ sW.core.length ∧
    (∃ sN, handleTick cfgW 5 sW = some sN ∧
      (sN.phase = Phase.WAITING ↔ (5 : ℤ) = endTime cfgW sW) ∧
      ((5 : ℤ) = endTime cfgW sW →
        sN.core = sW.core.drop cfgW.n_load ∧
        sN.storage = sW.storage ++ (sW.core.take cfgW.n_load).map
          (fun b => { qty := b.qty, recipe := cfgW.out_recipe }) ∧
        sN.reserves = sW.reserves ∧ sN.spillover = sW.spillover) ∧
      ((5 : ℤ) ≠ endTime cfgW sW → sN = sW)) :=
  ⟨rfl, by decide, unload_timing cfgW sW 5 rfl (by decide)⟩

/-- C4: in the WAITING phase, a tick at time t moves the facility to
PROCESSING exactly when the core holds batchCount batches and
endTime + refuelTime ≤ t; when it fires the phase becomes PROCESS with
start_time = t, and otherwise the state is unchanged — in particular the
facility never resumes PROCESSING before endTime + refuelTime even with a
full core. -/
theorem refuel_gating (cfg : Config) (s : State) (t : ℤ)
    (hp : s.phase = Phase.WAITING) :
    ∃ sN, handleTick cfg t s = some sN ∧
      (sN.phase = Phase.PROCESS ↔
        (s.core.length = cfg.n_batches ∧
          endTime cfg s + (cfg.refuel_time : ℤ) ≤ t)) ∧
      ((s.core.length = cfg.n_batches ∧
          endTime cfg s + (cfg.refuel_time : ℤ) ≤ t) →
        sN = { s with phase := Phase.PROCESS, start_time := t }) ∧
      (¬(s.core.length = cfg.n_batches ∧
          endTime cfg s + (cfg.refuel_time : ℤ) ≤ t) →
        sN = s) := by
  by_cases hc : s.core.length = cfg.n_batches ∧
      endTime cfg s + (cfg.refuel_time : ℤ) ≤ t
  · refine ⟨setPhase t Phase.PROCESS s, ?_, ?_, fun _ => rfl,
      fun hn => absurd hc hn⟩
    · simp only [handleTick, hp, if_pos hc]
    · simp [setPhase, hc.1, hc.2]
  · refine ⟨s, ?_, ?_, fun hcc => absurd hcc hc, fun _ => rfl⟩
    · simp only [handleTick, hp, if_neg hc]
    · simp [hp, hc]

/-- Witness for refuel_gating: a full core waiting state at the first
allowed resume time endTime + refuelTime = 7. -/
theorem refuel_gating_witness :
    sWait.phase = Phase.WAITING ∧
    (∃ sN, handleTick cfgW 7 sWait = some sN ∧
      (sN.phase = Phase.PROCESS ↔
        (sWait.core.length = cfgW.n_batches ∧
          endTime cfgW sWait + (cfgW.refuel_time : ℤ) ≤ 7)) ∧
      ((sWait.core.length = cfgW.n_batches ∧
          endTime cfgW sWait + (cfgW.refuel_time : ℤ) ≤ 7) →
        sN = { sWait with phase := Phase.PROCESS, start_time := 7 }) ∧
      (¬(sWait.core.length = cfgW.n_batches ∧
          endTime cfgW sWait + (cfgW.refuel_time : ℤ) ≤ 7) →
        sN = sWait)) :=
  ⟨rfl, refuel_gating cfgW sWait 7 rfl⟩

/-- C5 counterexample: with batch_size = 1 and a spillover already holding
1/2, absorbing the exact one-batch multiple 1 = 1 * batchSize pushes one
batch but leaves spillover at 1/2, not at exactly 0; the round-trip clause
fails for states whose spillover is not empty beforehand. -/
theorem spillover_roundtrip_cex :
    (1 : ℚ) = ((1 : ℕ) : ℚ) * cfgW.batch_size ∧
    (addBatches_ cfgW 1 sHalf).spillover ≠ 0 := by
  have h1 : drainLoop 1 "fresh" (3/2) [] =
      (1/2, [{ qty := 1, recipe := "fresh" }]) := by
    rw [drainLoop, dif_pos (by norm_num)]
    rw [drainLoop, dif_neg (by norm_num)]
    norm_num
  have hEval : addBatches_ cfgW 1 sHalf =
      { sHalf with spillover := 1/2,
                   reserves := [{ qty := 1, recipe := "fresh" }] } := by
    rw [addBatches_]
    have hs : sHalf.spillover + 1 = 3/2 := by norm_num [sHalf]
    rw [show cfgW.batch_size = 1 from rfl, show cfgW.in_recipe = "fresh" from rfl,
        hs, show sHalf.reserves = [] from rfl, h1]
  refine ⟨by norm_num [cfgW], ?_⟩
  rw [hEval]
  norm_num

/-- C5 (amended): after every completed AddBatches_ call on a state with
nonnegative spillover, absorbing any nonnegative quantity leaves
0 ≤ spillover < batchSize; and when the spillover is empty before the call,
absorbing an exact multiple k·batchSize pushes exactly k whole batches onto
reserves and leaves spillover at exactly 0. -/
theorem spillover_bound (cfg : Config) (s : State) (q : ℚ)
    (hB : 0 < cfg.batch_size) (hs : 0 ≤ s.spillover) (hq : 0 ≤ q) :
    (0 ≤ (addBatches_ cfg q s).spillover ∧
      (addBatches_ cfg q s).spillover < cfg.batch_size) ∧
    (∀ k : ℕ, s.spillover = 0 → q = (k : ℚ) * cfg.batch_size →
      (addBatches_ cfg q s).spillover = 0 ∧
      (addBatches_ cfg q s).reserves = s.reserves ++
        List.replicate k { qty := cfg.batch_size, recipe := cfg.in_recipe }) := by
  constructor
  · have hb := drainLoop_bound cfg.batch_size cfg.in_recipe hB
      (s.spillover + q) s.reserves
    simp only [addBatches_]
    exact ⟨hb.2 (by linarith), hb.1⟩
  · intro k h0 hk
    simp only [addBatches_, h0, hk, zero_add,
      drainLoop_mul cfg.batch_size cfg.in_recipe hB k s.reserves]
    exact ⟨trivial, trivial⟩

/-- Witness for spillover_bound: absorbing two whole batches into an empty
facility. -/
theorem spillover_bound_witness :
    (0 : ℚ) < cfgW.batch_size ∧ (0 : ℚ) ≤ s0W.spillover ∧ ((0 : ℚ) ≤ (2 : ℚ)) ∧
    ((0 ≤ (addBatches_ cfgW 2 s0W).spillover ∧
      (addBatches_ cfgW 2 s0W).spillover < cfgW.batch_size) ∧
     (∀ k : ℕ, s0W.spillover = 0 → (2 : ℚ) = (k : ℚ) * cfgW.batch_size →
      (addBatches_ cfgW 2 s0W).spillover = 0 ∧
      (addBatches_ cfgW 2 s0W).reserves = s0W.reserves ++
        List.replicate k { qty := cfgW.batch_size, recipe := cfgW.in_recipe })) :=
  ⟨by norm_num [cfgW], le_refl 0, by norm_num,
    spillover_bound cfgW s0W 2 (by norm_num [cfgW]) (le_refl 0) (by norm_num)⟩

/-- C6: GetMatlBids produces a portfolio exactly when storage holds positive
quantity and there are requests for the output commodity; each bid offers
min(requestedQuantity, storage.qty) of output material, and the portfolio
carries the single shared capacity constraint storage.qty, so any amounts
accepted within the constraint sum to at most the storage quantity at the
start of the tick. -/
theorem storage_bids (cfg : Config) (s : State) (reqs : List (String × ℚ)) :
    (getMatlBids cfg s reqs ≠ [] ↔
      ((reqs.filter fun r => r.1 = cfg.out_commodity) ≠ [] ∧
        0 < storageQty s)) ∧
    ∀ p ∈ getMatlBids cfg s reqs,
      p.constraint = storageQty s ∧
      p.bids = ((reqs.filter fun r => r.1 = cfg.out_commodity).map Prod.snd).map
        (fun q => min q (storageQty s)) ∧
      ∀ accepted : List ℚ, accepted.sum ≤ p.constraint →
        accepted.sum ≤ storageQty s := by
  have hiff : ((reqs.filter fun r => r.1 = cfg.out_commodity).map Prod.snd ≠ [])
      ↔ (reqs.filter fun r => r.1 = cfg.out_commodity) ≠ [] :=
    not_congr List.map_eq_nil_iff
  by_cases hc : ((reqs.filter fun r => r.1 = cfg.out_commodity).map Prod.snd ≠ []
      ∧ 0 < storageQty s)
  · have he : getMatlBids cfg s reqs
        = [{ bids := ((reqs.filter fun r => r.1 = cfg.out_commodity).map
               Prod.snd).map (fun q => min q (storageQty s)),
             constraint := storageQty s }] := by
      simp only [getMatlBids]
      rw [if_pos hc]
    refine ⟨iff_of_true (by rw [he]; exact List.cons_ne_nil _ _)
      ⟨hiff.mp hc.1, hc.2⟩, ?_⟩
    intro p hmem
    rw [he, List.mem_singleton] at hmem
    subst hmem
    exact ⟨rfl, rfl, fun accepted ha => ha⟩
  · have he : getMatlBids cfg s reqs = [] := by
      simp only [getMatlBids]
      rw [if_neg hc]
    refine ⟨iff_of_false (by rw [he]; simp)
      (fun hand => hc ⟨hiff.mpr hand.1, hand.2⟩), ?_⟩
    intro p hmem
    rw [he] at hmem
    simp at hmem

/-- Request list used by the bid witness: one request on the output
commodity, one on an unrelated commodity. -/
def reqsW : List (String × ℚ) := [("uox_out", 5), ("other", 1)]

/-- The bid portfolio produced for reqsW against sBid under cfgW. -/
def pBid : BidPortfolio :=
  { bids := [min 5 (storageQty sBid)], constraint := storageQty sBid }

/-- Witness for storage_bids: the concrete portfolio for one matching and
one non-matching request. -/
theorem storage_bids_witness :
    pBid ∈ getMatlBids cfgW sBid reqsW ∧
    (pBid.constraint = storageQty sBid ∧
      pBid.bids = ((reqsW.filter fun r => r.1 = cfgW.out_commodity).map
        Prod.snd).map (fun q => min q (storageQty sBid)) ∧
      ∀ accepted : List ℚ, accepted.sum ≤ pBid.constraint →
        accepted.sum ≤ storageQty sBid) := by
  have hpos : 0 < storageQty sBid := by norm_num [storageQty, qtySum, sBid]
  have hmem : pBid ∈ getMatlBids cfgW sBid reqsW := by
    simp only [getMatlBids]
    rw [if_pos ⟨by decide, hpos⟩]
    exact List.mem_singleton.mpr rfl
  exact ⟨hmem, (storage_bids cfgW sBid reqsW).2 pBid hmem⟩

/-- C7: in the INITIAL phase GetMatlRequests computes
need = nbatches·batchsize − core.qty − reserves.qty − spillover.qty, adds
n_reserves·batchsize exactly when preorder_time = 0, and emits exactly one
acquisition request, of size need, iff need > 0; every emitted request has
positive quantity. -/
theorem initial_requests (cfg : Config) (s : State) (t : ℤ)
    (hp : s.phase = Phase.INITIAL) (need : ℚ)
    (hneed : need = (cfg.n_batches : ℚ) * cfg.batch_size - coreQty s
      - reservesQty s - s.spillover
      + (if cfg.preorder_time = 0
         then cfg.batch_size * (cfg.n_reserves : ℚ) else 0)) :
    (0 < need → getMatlRequests cfg t s = [getOrder_ cfg need]) ∧
    (need ≤ 0 → getMatlRequests cfg t s = []) ∧
    (∀ p ∈ getMatlRequests cfg t s, 0 < p.qty) := by
  have hos : getMatlRequests cfg t s
      = if 0 < need then [getOrder_ cfg need] else [] := by
    simp only [getMatlRequests, hp]
    by_cases hp0 : cfg.preorder_time = 0
    · rw [if_pos hp0] at hneed ⊢
      rw [hneed]
    · rw [if_neg hp0] at hneed ⊢
      rw [hneed, add_zero]
  refine ⟨fun hpos => by rw [hos, if_pos hpos],
          fun hle => by rw [hos, if_neg (not_lt.mpr hle)], ?_⟩
  intro p hmem
  rw [hos] at hmem
  by_cases hpos : 0 < need
  · rw [if_pos hpos, List.mem_singleton] at hmem
    subst hmem
    exact hpos
  · rw [if_neg hpos] at hmem
    simp at hmem

/-- Witness for initial_requests: an empty just-deployed facility under cfgW
requests 2·1 + 1·1 = 3. -/
theorem initial_requests_witness :
    s0W.phase = Phase.INITIAL ∧
    (3 : ℚ) = (cfgW.n_batches : ℚ) * cfgW.batch_size - coreQty s0W
      - reservesQty s0W - s0W.spillover
      + (if cfgW.preorder_time = 0
         then cfgW.batch_size * (cfgW.n_reserves : ℚ) else 0) ∧
    ((0 < (3 : ℚ) → getMatlRequests cfgW 0 s0W = [getOrder_ cfgW 3]) ∧
     ((3 : ℚ) ≤ 0 → getMatlRequests cfgW 0 s0W = []) ∧
     (∀ p ∈ getMatlRequests cfgW 0 s0W, 0 < p.qty)) :=
  ⟨rfl, by norm_num [cfgW, s0W, coreQty, reservesQty, qtySum],
   initial_requests cfgW s0W 0 rfl 3
     (by norm_num [cfgW, s0W, coreQty, reservesQty, qtySum])⟩

/-- C8 counterexample: with nreload = 5 supplied and norder absent, the code
sets n_reserves to 5 (the freshly updated n_load), not to the claimed
default 1 — the default for norder is not independent of nreload. -/
theorem norder_default_cex :
    (initLoadReserves { nreload := some 5, norder := none }).2 ≠ 1 := by
  decide

/-- C8 (amended): an absent nreload leaves n_load at its default 1, but an
absent norder defaults n_reserves to the current n_load (the nreload value
when supplied); only when both elements are absent does n_reserves end up
at 1. -/
theorem norder_default (q : OptQuery) :
    (q.nreload = none → (initLoadReserves q).1 = 1) ∧
    (q.norder = none → (initLoadReserves q).2 = (initLoadReserves q).1) ∧
    (q.nreload = none → q.norder = none → (initLoadReserves q).2 = 1) := by
  rcases q with ⟨r, o⟩
  refine ⟨fun h1 => ?_, fun h2 => ?_, fun h1 h2 => ?_⟩ <;>
    simp_all [initLoadReserves, getOptionalQuery]

/-- Witness for norder_default: both elements absent give (1, 1). -/
theorem norder_default_witness :
    (initLoadReserves { nreload := none, norder := none }).2 = 1 :=
  (norder_default { nreload := none, norder := none }).2.2 rfl rfl

/-- C9 counterexample: at a concrete failing outgoing trade the produced
message reads "experience", not "experienced" — even taking the facility
identifier to be the literal "BatchReactor", the actual message differs
from the claimed form identifier ++ " experienced an error: " ++ cause. -/
theorem error_wrapping_cex :
    getMatlTrades cfgW [1] s0W = Except.error (wrapMsg bufferUnderflowMsg) ∧
    wrapMsg bufferUnderflowMsg
      ≠ "BatchReactor" ++ " experienced an error: " ++ bufferUnderflowMsg := by
  exact ⟨rfl, by decide⟩

/-- C9 (amended): when storage cannot satisfy an outgoing trade amount, the
buffer error is caught, wrapped in the message
"BatchReactor experience an error: " (a fixed class-name literal, not the
facility identifier, and with the source misspelling) followed by the
original cause, and rethrown: the whole call fails with that error
regardless of any remaining trades, with no retry and nothing swallowed. -/
theorem error_wrapping (cfg : Config) (s : State) (amt : ℚ) (rest : List ℚ)
    (hnn : ∀ b ∈ s.storage, 0 ≤ b.qty) (hlt : storageQty s < amt) :
    getMatlTrades cfg (amt :: rest) s
      = Except.error (wrapMsg bufferUnderflowMsg) ∧
    wrapMsg bufferUnderflowMsg
      = "BatchReactor experience an error: " ++ bufferUnderflowMsg := by
  have hp : popQty amt s.storage = none := popQty_none s.storage amt hnn hlt
  exact ⟨by simp only [getMatlTrades, hp], rfl⟩

/-- Witness for error_wrapping: an empty storage asked for one unit. -/
theorem error_wrapping_witness :
    (∀ b ∈ s0W.storage, 0 ≤ b.qty) ∧ storageQty s0W < 1 ∧
    (getMatlTrades cfgW [1] s0W
        = Except.error (wrapMsg bufferUnderflowMsg) ∧
     wrapMsg bufferUnderflowMsg
        = "BatchReactor experience an error: " ++ bufferUnderflowMsg) :=
  ⟨by simp [s0W], by norm_num [storageQty, qtySum, s0W],
   error_wrapping cfgW s0W 1 [] (by simp [s0W])
     (by norm_num [storageQty, qtySum, s0W])⟩

/-- C10: AcceptMatlTrades does not return normally on an empty response
list (responses.at(0) throws), and on any non-empty list the merged
quantity handed to AddBatches_ (and thus to the spillover accumulator)
equals the sum of all response quantities. -/
theorem accept_requires_nonempty (cfg : Config) (s : State) :
    acceptMatlTrades cfg [] s = none ∧
    ∀ (q : ℚ) (qs : List ℚ),
      acceptMatlTrades cfg (q :: qs) s
        = some (addBatches_ cfg ((q :: qs).sum) s) := by
  refine ⟨rfl, ?_⟩
  intro q qs
  rw [acceptMatlTrades, foldl_add_sum, List.sum_cons]

end BatchReactor
